import Mathlib

/-!
Verification of `tools/extract_id_blocks_from_json.py`.

The script reads a JSON document as raw text, finds every occurrence of the
literal `"id": "<value>"`, and for each occurrence extracts the surrounding
brace-delimited block by a backward scan for an opening brace and a forward
brace-depth scan.  The embedding below models the document as a `List Char`
and follows the Python source line by line; Python's fallible indexing and
slicing are made explicit.
-/

namespace ExtractIdBlocks

/-- JSON values as produced by `json.loads`.  Numbers are kept as a decimal
mantissa and a power-of-ten exponent (`num m e` stands for `m * 10 ^ e`);
an object keeps its fields in insertion order, a repeated key overwrites the
value in place, as a Python `dict` does. -/
inductive Json where
  | null
  | bool (b : Bool)
  | num (mantissa : Int) (exp10 : Int)
  | str (s : List Char)
  | arr (items : List Json)
  | obj (fields : List (List Char × Json))

/-- One element of the printed result array: the two offsets of the extracted
block and its parsed contents (`first_line`/`last_line` are rendered from
`start`/`stop` by `str(...)` in the source). -/
structure Entry where
  start : Int
  stop : Int
  data : Json

/-- The deduplication key the source uses: `obj_key = (start, end)`. -/
def entryKey (e : Entry) : Int × Int := (e.start, e.stop)

/-- What one invocation prints to stdout: either a JSON array of entries or
an error object `\x7b"error": msg\x7d`. -/
inductive Output where
  | arr (entries : List Entry)
  | errObj (msg : List Char)

/-- Result of `extract_json_object`.  `ok text start stop` is the successful
return `(content[object_start:object_end+1], object_start, object_end)`
(`start` is an `Int` because the backward scan can leave `object_start = -1`);
`notFound` is the source's `return None, -1, -1`; `indexError` models a Python
`IndexError` escaping the function.  For every in-range offset the source can
only produce `ok` or `indexError`: the loop condition is re-checked only after
`content[object_end]` has been read, so the `notFound` return is dead code. -/
inductive ExtractResult where
  | ok (text : List Char) (start : Int) (stop : Int)
  | notFound
  | indexError
deriving DecidableEq

/-- Result of the backward scan of `extract_json_object`:
the index of the nearest opening brace at or before the offset, or `nofind`
when the loop ran down past position 0, or `err` when the very first read
`content[start_pos]` is out of range. -/
inductive BackResult where
  | found (i : Nat)
  | nofind
  | err
deriving DecidableEq

/-- Result of the forward scan: `matched e` when the depth counter reached 0
at index `e`, `oob` when the scan ran off the end of the document (the Python
loop body reads `content[object_end]` after incrementing, so exhausting the
text raises `IndexError` instead of leaving the loop). -/
inductive FwdResult where
  | matched (e : Nat)
  | oob
deriving DecidableEq

/-- Python index clamping for one endpoint of a slice: a negative index counts
from the end (clamped at 0), a positive one is clamped at the length. -/
def pyIndex (len : Nat) (i : Int) : Nat :=
  if i < 0 then ((len : Int) + i).toNat else min i.toNat len

/-- Python slice `l[a:b]` over a character list, with Python's negative-index
and clamping semantics. -/
def pySlice (l : List Char) (a b : Int) : List Char :=
  let s := pyIndex l.length a
  let t := pyIndex l.length b
  (l.drop s).take (t - s)

/-- Backward scan of `extract_json_object` (lines 22-27 of the source):
`while object_start >= 0: if content[object_start] == '\x7b': break;
object_start -= 1`.  Only the first read can be out of range, since the
index only decreases. -/
def scanBack (content : List Char) : Nat → BackResult
  | 0 =>
    match content[0]? with
    | none => .err
    | some c => if c = '\x7b' then .found 0 else .nofind
  | i + 1 =>
    match content[i + 1]? with
    | none => .err
    | some c => if c = '\x7b' then .found (i + 1) else scanBack content i

/-- Forward scan of `extract_json_object` (lines 29-38): the list argument is
the text after the current index `e`, the third argument the value of
`bracket_count`.  Each step mirrors one loop iteration: increment `object_end`,
read `content[object_end]`, adjust the counter.  Reading past the end of the
document is `oob` (Python raises `IndexError` there). -/
def scanFwdAux : List Char → Nat → Nat → FwdResult
  | _, e, 0 => .matched e
  | [], _, _ + 1 => .oob
  | c :: rest, e, count + 1 =>
    if c = '\x7b' then scanFwdAux rest (e + 1) (count + 2)
    else if c = '\x7d' then scanFwdAux rest (e + 1) count
    else scanFwdAux rest (e + 1) (count + 1)

/-- `extract_json_object(content, start_pos)` (lines 17-43 of the source).
The backward scan finds `object_start`; when it runs out at position 0 the
source does not stop: it continues with `object_start = -1` and, on success,
returns the Python slice `content[-1:object_end+1]`.  The forward scan starts
at `start_pos` with `bracket_count = 1`. -/
def extract_json_object (content : List Char) (start_pos : Nat) : ExtractResult :=
  match scanBack content start_pos with
  | .err => .indexError
  | .nofind =>
    match scanFwdAux (content.drop (start_pos + 1)) start_pos 1 with
    | .matched e => .ok (pySlice content (-1) ((e : Int) + 1)) (-1) (e : Int)
    | .oob => .indexError
  | .found s =>
    match scanFwdAux (content.drop (start_pos + 1)) start_pos 1 with
    | .matched e => .ok (pySlice content (s : Int) ((e : Int) + 1)) (s : Int) (e : Int)
    | .oob => .indexError

/-- The literal `find_all_positions` searches for: `f'"id": "\x7btarget_id\x7d"'`,
that is `"id": "` followed by the id value and a closing quote. -/
def searchChars (target_id : String) : List Char :=
  "\"id\": \"".toList ++ target_id.toList ++ "\"".toList

/-- The literal `t` occurs in `content` at offset `p`: the next
`t.length` characters from `p` are exactly `t` (so `p + t.length` is within
the document). -/
def OccursAt (content t : List Char) (p : Nat) : Prop :=
  (content.drop p).take t.length = t

instance (content t : List Char) (p : Nat) : Decidable (OccursAt content t p) := by
  unfold OccursAt; infer_instance

/-- Helper for Python's `content.find(t, i)`: scan the suffix `s` of the
document that starts at index `i`, returning the first index whose suffix
starts with `t`. -/
def strFindAux (t : List Char) : List Char → Nat → Option Nat
  | [], i => if t = [] then some i else none
  | c :: rest, i =>
    if (c :: rest).take t.length = t then some i else strFindAux t rest (i + 1)

/-- Python `content.find(t, start)`: the least index `p ≥ start` at which `t`
occurs, `none` standing for the return value `-1`. -/
def strFind (content t : List Char) (start : Nat) : Option Nat :=
  strFindAux t (content.drop start) start

/-- The search loop of `find_all_positions` (lines 9-15): find, append, and
search again from `pos + 1`.  The fuel argument only bounds the recursion;
`content.length + 1` steps are always enough because each found position is
at least the start index and the next start index is one past it. -/
def findLoop (content t : List Char) : Nat → Nat → List Nat
  | 0, _ => []
  | fuel + 1, i =>
    match strFind content t i with
    | none => []
    | some p => p :: findLoop content t fuel (p + 1)

/-- `find_all_positions(content, target_id)` (lines 5-15 of the source). -/
def find_all_positions (content : List Char) (target_id : String) : List Nat :=
  findLoop content (searchChars target_id) (content.length + 1) 0

/-! ### A model of `json.loads`

The script hands each extracted block (and, in claim C8's round-trip, the
whole document) to `json.loads`.  The recursive-descent model below follows
the strict JSON grammar the Python decoder implements: optional whitespace
around tokens, `null`/`true`/`false`, numbers without leading zeros, strings
with the standard escapes (a `\u` escape becomes a single code point; the
decoder's pairing of surrogate escapes is not modelled, no claim depends on
it), arrays, and objects whose repeated keys overwrite in place.  `loads`
fails when anything but whitespace follows the first value. -/

/-- Whitespace as the JSON grammar knows it. -/
def isJsonWs (c : Char) : Bool :=
  c == ' ' || c == '\t' || c == '\n' || c == '\x0d'

/-- Drop leading JSON whitespace. -/
def skipWs : List Char → List Char
  | [] => []
  | c :: cs => if isJsonWs c then skipWs cs else c :: cs

/-- Split off a maximal run of leading decimal digits. -/
def takeDigits : List Char → List Char × List Char
  | [] => ([], [])
  | c :: cs =>
    if c.isDigit then
      match takeDigits cs with
      | (ds, r) => (c :: ds, r)
    else ([], c :: cs)

/-- Value of a digit run. -/
def digitsVal (ds : List Char) : Nat :=
  ds.foldl (fun a c => a * 10 + (c.toNat - '0'.toNat)) 0

/-- Attach the sign of a parsed number. -/
def mkSign (neg : Bool) (m : Nat) : Int :=
  if neg then -(m : Int) else (m : Int)

/-- The exponent tail of a number, after `e`/`E`: optional sign, digits. -/
def parseExpDigits (neg : Bool) (mant : Nat) (e10 : Int) (r : List Char) :
    Option (Json × List Char) :=
  let signRest : Int × List Char :=
    match r with
    | '+' :: r2 => (1, r2)
    | '-' :: r2 => (-1, r2)
    | _ => (1, r)
  match takeDigits signRest.2 with
  | ([], _) => none
  | (ds, r2) => some (.num (mkSign neg mant) (e10 + signRest.1 * (digitsVal ds : Int)), r2)

/-- After the integer and fraction parts: an optional exponent. -/
def parseNumberExp (neg : Bool) (mant : Nat) (e10 : Int) (s : List Char) :
    Option (Json × List Char) :=
  match s with
  | 'e' :: r => parseExpDigits neg mant e10 r
  | 'E' :: r => parseExpDigits neg mant e10 r
  | _ => some (.num (mkSign neg mant) e10, s)

/-- After the integer part: an optional fraction `.digits`, then the exponent. -/
def parseNumberFrac (neg : Bool) (intVal : Nat) (s : List Char) :
    Option (Json × List Char) :=
  match s with
  | '.' :: r =>
    match takeDigits r with
    | ([], _) => none
    | (ds, r2) => parseNumberExp neg (intVal * 10 ^ ds.length + digitsVal ds) (-(ds.length : Int)) r2
  | _ => parseNumberExp neg intVal 0 s

/-- A JSON number: optional minus, integer part (`0` alone, or a nonzero
leading digit), optional fraction and exponent. -/
def parseNumber (s : List Char) : Option (Json × List Char) :=
  let signRest : Bool × List Char :=
    match s with
    | '-' :: r => (true, r)
    | _ => (false, s)
  match signRest.2 with
  | [] => none
  | c :: _ =>
    if c.isDigit then
      match signRest.2 with
      | '0' :: r => parseNumberFrac signRest.1 0 r
      | s1 => match takeDigits s1 with
        | (ds, r) => parseNumberFrac signRest.1 (digitsVal ds) r
    else none

/-- An unescaped char of a simple escape sequence. -/
def escChar : Char → Option Char
  | '"' => some '"'
  | '\\' => some '\\'
  | '/' => some '/'
  | 'b' => some (Char.ofNat 8)
  | 'f' => some (Char.ofNat 12)
  | 'n' => some '\n'
  | 'r' => some (Char.ofNat 13)
  | 't' => some '\t'
  | _ => none

/-- Value of one hexadecimal digit. -/
def hexVal (c : Char) : Option Nat :=
  if c.isDigit then some (c.toNat - '0'.toNat)
  else if c.toNat - 'a'.toNat < 6 then some (c.toNat - 'a'.toNat + 10)
  else if c.toNat - 'A'.toNat < 6 then some (c.toNat - 'A'.toNat + 10)
  else none

/-- The body of a string literal, after the opening quote: the decoded
characters and the rest of the input after the closing quote.  Unescaped
control characters are rejected, as the strict Python decoder does. -/
def parseStringBody : List Char → Option (List Char × List Char)
  | [] => none
  | '"' :: r => some ([], r)
  | '\\' :: 'u' :: h1 :: h2 :: h3 :: h4 :: r =>
    match hexVal h1, hexVal h2, hexVal h3, hexVal h4 with
    | some a, some b, some c, some d =>
      match parseStringBody r with
      | none => none
      | some (cs, r2) => some (Char.ofNat (((a * 16 + b) * 16 + c) * 16 + d) :: cs, r2)
    | _, _, _, _ => none
  | '\\' :: e :: r =>
    match escChar e with
    | none => none
    | some c =>
      match parseStringBody r with
      | none => none
      | some (cs, r2) => some (c :: cs, r2)
  | '\\' :: [] => none
  | c :: r =>
    if c.toNat < 32 then none
    else
      match parseStringBody r with
      | none => none
      | some (cs, r2) => some (c :: cs, r2)

/-- Insert a field into an object under construction: a repeated key
overwrites the value but keeps the original position, as a Python `dict`
does. -/
def setKey : List (List Char × Json) → List Char → Json → List (List Char × Json)
  | [], k, v => [(k, v)]
  | (k0, v0) :: rest, k, v =>
    if k0 = k then (k0, v) :: rest else (k0, v0) :: setKey rest k v

mutual

/-- One JSON value at the head of the input (no leading whitespace).  The
fuel argument only bounds the mutual recursion; `json_loads` passes enough
for any input of the given length. -/
def parseValue : Nat → List Char → Option (Json × List Char)
  | 0, _ => none
  | fuel + 1, s =>
    match s with
    | 'n' :: 'u' :: 'l' :: 'l' :: r => some (.null, r)
    | 't' :: 'r' :: 'u' :: 'e' :: r => some (.bool true, r)
    | 'f' :: 'a' :: 'l' :: 's' :: 'e' :: r => some (.bool false, r)
    | '"' :: r =>
      match parseStringBody r with
      | none => none
      | some (cs, r2) => some (.str cs, r2)
    | '[' :: r =>
      match skipWs r with
      | ']' :: r2 => some (.arr [], r2)
      | s2 => parseItems fuel s2 []
    | '\x7b' :: r =>
      match skipWs r with
      | '\x7d' :: r2 => some (.obj [], r2)
      | s2 => parseMembers fuel s2 []
    | _ => parseNumber s

/-- The elements of a non-empty array, between `[` and `]`. -/
def parseItems : Nat → List Char → List Json → Option (Json × List Char)
  | 0, _, _ => none
  | fuel + 1, s, acc =>
    match parseValue fuel s with
    | none => none
    | some (v, r) =>
      match skipWs r with
      | ',' :: r2 => parseItems fuel (skipWs r2) (acc ++ [v])
      | ']' :: r2 => some (.arr (acc ++ [v]), r2)
      | _ => none

/-- The members of a non-empty object, between `\x7b` and `\x7d`. -/
def parseMembers : Nat → List Char → List (List Char × Json) → Option (Json × List Char)
  | 0, _, _ => none
  | fuel + 1, s, acc =>
    match s with
    | '"' :: r =>
      match parseStringBody r with
      | none => none
      | some (key, r2) =>
        match skipWs r2 with
        | ':' :: r3 =>
          match parseValue fuel (skipWs r3) with
          | none => none
          | some (v, r4) =>
            match skipWs r4 with
            | ',' :: r5 => parseMembers fuel (skipWs r5) (setKey acc key v)
            | '\x7d' :: r5 => some (.obj (setKey acc key v), r5)
            | _ => none
        | _ => none
    | _ => none

end

/-- `json.loads` over a character list: one value, with whitespace allowed on
both sides and nothing else after it. -/
def json_loads (s : List Char) : Option Json :=
  match parseValue (2 * s.length + 2) (skipWs s) with
  | some (v, rest) => if skipWs rest = [] then some v else none
  | none => none

/-! ### The driving loop of `main` (lines 52-94 of the source) -/

/-- One iteration of the extraction loop (lines 68-86): run
`extract_json_object` at one position and update the pair
`(found_objects, results)`.  `none` models the `IndexError` that escapes the
loop when the forward scan runs off the end of the document.  The source
tests `if obj:`, so an empty extracted string is skipped just like `None`;
the deduplication key is added to `found_objects` before the parse is
attempted, and a block that fails to parse is dropped silently. -/
def processStep (content : List Char) (pos : Nat) (found : List (Int × Int))
    (acc : List Entry) : Option (List (Int × Int) × List Entry) :=
  match extract_json_object content pos with
  | .indexError => none
  | .notFound => some (found, acc)
  | .ok text s e =>
    if text = [] then some (found, acc)
    else if (s, e) ∈ found then some (found, acc)
    else
      match json_loads text with
      | some v => some ((s, e) :: found, acc ++ [⟨s, e, v⟩])
      | none => some ((s, e) :: found, acc)

/-- The whole extraction loop over the found positions. -/
def processPositions (content : List Char) :
    List Nat → List (Int × Int) → List Entry → Option (List Entry)
  | [], _, acc => some acc
  | pos :: rest, found, acc =>
    match processStep content pos found acc with
    | none => none
    | some (found2, acc2) => processPositions content rest found2 acc2

/-- What `main` prints once the document has been read (lines 56-94): the
empty array when the literal has no occurrence, otherwise the array built by
the extraction loop — unless an `IndexError` escapes the loop, in which case
the generic `except Exception` handler prints the error object
`\x7b"error": "string index out of range"\x7d` instead. -/
def run (content : List Char) (target : String) : Output :=
  match find_all_positions content target with
  | [] => .arr []
  | p :: rest =>
    match processPositions content (p :: rest) [] [] with
    | some entries => .arr entries
    | none => .errObj ("string index out of range".toList)

/-- One whole invocation (lines 52-94): `none` for the document models a path
that cannot be opened, which the `except FileNotFoundError` handler turns
into the error object `\x7b"error": "File '<name>' not found"\x7d`. -/
def program (file : Option (List Char)) (filename : String) (target : String) : Output :=
  match file with
  | none => .errObj ("File '".toList ++ filename.toList ++ "' not found".toList)
  | some content => run content target

/-! ### Lexical notions the spec's claims quantify over -/

/-- Sum of brace deltas over `content[s..i]` (both ends included): the brace
depth just after reading position `i` of a scan that starts at `s`. -/
def depthUpTo (content : List Char) (s i : Nat) : Int :=
  (((content.drop s).take (i + 1 - s)).map
    fun c => if c = '\x7b' then (1 : Int) else if c = '\x7d' then -1 else 0).sum

/-- `content[s..e]` is a syntactically balanced `\x7b...\x7d` block in the
purely lexical sense of the spec's glossary: it opens with a brace, every
proper prefix has positive depth, and the depth returns to 0 exactly at `e`. -/
def isBalancedBlock (content : List Char) (s e : Nat) : Bool :=
  decide (s ≤ e) && decide (e < content.length) && (content[s]? == some '\x7b') &&
  decide (∀ k, k < e - s → 0 < depthUpTo content s (s + k)) &&
  decide (depthUpTo content s e = 0)

/-- No balanced block of `content` other than `content[s..e]` strictly
contains position `p`: together with `isBalancedBlock content s e`, this says
`[s..e]` is THE enclosing balanced block of `p`. -/
def onlyEnclosingBlock (content : List Char) (p s e : Nat) : Bool :=
  decide (∀ s2, s2 < content.length → ∀ e2, e2 < content.length →
    ¬(isBalancedBlock content s2 e2 = true ∧ s2 < p ∧ p < e2 ∧ ¬(s2 = s ∧ e2 = e)))

/-- Scan `content` with a minimal string-literal lexer (second argument: are
we inside a quoted string, with `\\` escaping the next character): `true` iff
no literal brace character occurs inside a string value — the "no embedded
literal braces in strings" hypothesis of the spec. -/
def stringsBraceFreeAux : List Char → Bool → Bool
  | [], _ => true
  | c :: rest, false => stringsBraceFreeAux rest (c == '"')
  | c :: rest, true =>
    if c == '\\' then
      match rest with
      | [] => true
      | _ :: rest2 => stringsBraceFreeAux rest2 true
    else if c == '"' then stringsBraceFreeAux rest false
    else if c == '\x7b' || c == '\x7d' then false
    else stringsBraceFreeAux rest true

/-- See `stringsBraceFreeAux`; the scan starts outside any string. -/
def stringsBraceFree (content : List Char) : Bool :=
  stringsBraceFreeAux content false

/-- Modelled from the spec: `find_positions` as §4.1 words it — "performs
repeated non-overlapping literal search from the start of the document" —
that is, the search resumes at `p + t.length` after a match at `p`, so
overlapping occurrences are skipped.  This is the spec's description, to be
compared with `find_all_positions`, whose source resumes at `p + 1`. -/
def specNonOverlapLoop (content t : List Char) : Nat → Nat → List Nat
  | 0, _ => []
  | fuel + 1, i =>
    match strFind content t i with
    | none => []
    | some p => p :: specNonOverlapLoop content t fuel (p + t.length)

/-- Modelled from the spec: all positions a non-overlapping search for the
id literal finds (see `specNonOverlapLoop`). -/
def specNonOverlappingPositions (content : List Char) (target_id : String) : List Nat :=
  specNonOverlapLoop content (searchChars target_id) (content.length + 1) 0

/-! ### Concrete documents the claims are settled on -/

/-- A valid document in which a closed sibling object precedes the id field
of the enclosing object: the text of `\x7b"a": \x7b"x": 1\x7d, "id": "42"\x7d`.
The literal `"id": "42"` starts at offset 16; the only balanced block that
strictly contains offset 16 is the whole document, offsets 0 to 26. -/
def nestedSiblingDoc : List Char := "\x7b\"a\": \x7b\"x\": 1\x7d, \"id\": \"42\"\x7d".toList

/-- What `extract_json_object nestedSiblingDoc 16` actually returns as text:
the fragment `\x7b"x": 1\x7d, "id": "42"\x7d`, offsets 6 to 26 — not a balanced
block and not valid JSON. -/
def fragmentChars : List Char := "\x7b\"x\": 1\x7d, \"id\": \"42\"\x7d".toList

/-- A truncated document with unbalanced braces: `\x7b"id": "42"` (the final
closing brace is missing).  The id literal occurs at offset 1. -/
def truncatedDoc : List Char := "\x7b\"id\": \"42\"".toList

/-- A document whose single object contains the literal `"id": "42"` twice:
`\x7b"id": "42", "a": 1, "id": "42"\x7d` (offsets 1 and 21). -/
def dupLiteralDoc : List Char := "\x7b\"id\": \"42\", \"a\": 1, \"id\": \"42\"\x7d".toList

/-- A document serializing the same id with no space after the colon:
`\x7b"id":"42"\x7d`. -/
def noSpaceDoc : List Char := "\x7b\"id\":\"42\"\x7d".toList

/-- A document in which the literal for id value `A` occurs at offsets 0 and
8, which overlap (the closing quote of the first occurrence is the opening
quote of the second): `"id": "A"id": "A"`. -/
def overlapDoc : List Char := "\"id\": \"A\"id\": \"A\"".toList

/-! ## Lemmas about the search loop -/

theorem strFindAux_some_spec (t : List Char) :
    ∀ (s : List Char) (i p : Nat), strFindAux t s i = some p →
      i ≤ p ∧ (s.drop (p - i)).take t.length = t ∧
        ∀ k, k < p - i → (s.drop k).take t.length ≠ t := by
  intro s
  induction s with
  | nil =>
    intro i p h
    simp only [strFindAux] at h
    split at h
    · rename_i ht
      injection h with h1
      subst h1
      subst ht
      refine ⟨le_refl i, by simp, ?_⟩
      intro k hk
      omega
    · exact Option.noConfusion h
  | cons c rest ih =>
    intro i p h
    simp only [strFindAux] at h
    split at h
    · rename_i htake
      injection h with h1
      subst h1
      refine ⟨le_refl i, ?_, ?_⟩
      · simpa using htake
      · intro k hk
        omega
    · rename_i htake
      obtain ⟨h1, h2, h3⟩ := ih (i + 1) p h
      refine ⟨by omega, ?_, ?_⟩
      · have hpi : p - i = (p - (i + 1)) + 1 := by omega
        rw [hpi, List.drop_succ_cons]
        exact h2
      · intro k hk
        match k with
        | 0 => simpa using htake
        | k2 + 1 =>
          rw [List.drop_succ_cons]
          exact h3 k2 (by omega)

theorem strFindAux_none_spec (t : List Char) :
    ∀ (s : List Char) (i : Nat), strFindAux t s i = none →
      ∀ k, (s.drop k).take t.length ≠ t := by
  intro s
  induction s with
  | nil =>
    intro i h k
    simp only [strFindAux] at h
    split at h
    · exact Option.noConfusion h
    · rename_i ht
      simp only [List.drop_nil, List.take_nil]
      exact fun hh => ht hh.symm
  | cons c rest ih =>
    intro i h k
    simp only [strFindAux] at h
    split at h
    · exact Option.noConfusion h
    · rename_i htake
      match k with
      | 0 => simpa using htake
      | k2 + 1 =>
        rw [List.drop_succ_cons]
        exact ih (i + 1) h k2

theorem strFind_some_spec (content t : List Char) (start p : Nat)
    (h : strFind content t start = some p) :
    start ≤ p ∧ OccursAt content t p ∧
      ∀ q, start ≤ q → q < p → ¬ OccursAt content t q := by
  obtain ⟨h1, h2, h3⟩ := strFindAux_some_spec t (content.drop start) start p h
  have hdd : ∀ k, (content.drop start).drop k = content.drop (start + k) := by
    intro k
    rw [List.drop_drop, Nat.add_comm]
  refine ⟨h1, ?_, ?_⟩
  · have h2b := h2
    rw [hdd, show start + (p - start) = p from by omega] at h2b
    exact h2b
  · intro q hq1 hq2 hocc
    have hk := h3 (q - start) (by omega)
    rw [hdd, show start + (q - start) = q from by omega] at hk
    exact hk hocc

theorem strFind_none_spec (content t : List Char) (start : Nat)
    (h : strFind content t start = none) :
    ∀ q, start ≤ q → ¬ OccursAt content t q := by
  intro q hq hocc
  have hk := strFindAux_none_spec t (content.drop start) start h (q - start)
  rw [List.drop_drop] at hk
  rw [show start + (q - start) = q from by omega] at hk
  exact hk hocc

theorem occursAt_lt_length (content t : List Char) (p : Nat) (ht : t ≠ [])
    (h : OccursAt content t p) : p < content.length := by
  by_contra hnp
  push_neg at hnp
  unfold OccursAt at h
  rw [List.drop_eq_nil_of_le hnp] at h
  simp only [List.take_nil] at h
  exact ht h.symm

theorem findLoop_spec (content t : List Char) (ht : t ≠ []) :
    ∀ (fuel i : Nat), content.length ≤ fuel + i →
      (∀ p, p ∈ findLoop content t fuel i ↔ (i ≤ p ∧ OccursAt content t p)) ∧
      (findLoop content t fuel i).Pairwise (· < ·) := by
  intro fuel
  induction fuel with
  | zero =>
    intro i hfi
    constructor
    · intro p
      simp only [findLoop, List.not_mem_nil, false_iff]
      rintro ⟨hip, hocc⟩
      have := occursAt_lt_length content t p ht hocc
      omega
    · simp [findLoop]
  | succ fuel ih =>
    intro i hfi
    simp only [findLoop]
    cases hf : strFind content t i with
    | none =>
      constructor
      · intro p
        simp only [List.not_mem_nil, false_iff]
        rintro ⟨hip, hocc⟩
        exact strFind_none_spec content t i hf p hip hocc
      · exact List.Pairwise.nil
    | some q =>
      obtain ⟨hiq, hoccq, hmin⟩ := strFind_some_spec content t i q hf
      have hqlen : q < content.length := occursAt_lt_length content t q ht hoccq
      obtain ⟨ihmem, ihpw⟩ := ih (q + 1) (by omega)
      constructor
      · intro p
        simp only [List.mem_cons]
        constructor
        · rintro (rfl | hp)
          · exact ⟨hiq, hoccq⟩
          · obtain ⟨hp1, hp2⟩ := (ihmem p).mp hp
            exact ⟨by omega, hp2⟩
        · rintro ⟨hip, hocc⟩
          by_cases hpq : p = q
          · exact Or.inl hpq
          · refine Or.inr ((ihmem p).mpr ⟨?_, hocc⟩)
            rcases Nat.lt_or_ge p q with hlt | hge
            · exact absurd hocc (hmin p hip hlt)
            · omega
      · refine List.Pairwise.cons ?_ ihpw
        intro p hp
        have := (ihmem p).mp hp
        omega

theorem searchChars_ne_nil (target_id : String) : searchChars target_id ≠ [] := by
  have h : searchChars target_id =
      '"' :: ("id\": \"".toList ++ target_id.toList ++ "\"".toList) := rfl
  rw [h]
  exact List.cons_ne_nil _ _

/-! ## Lemmas about the extraction loop -/

theorem processStep_inv (content : List Char) (pos : Nat)
    (found found2 : List (Int × Int)) (acc acc2 : List Entry)
    (hpw : (acc.map entryKey).Pairwise (· ≠ ·))
    (hsub : ∀ a ∈ acc, entryKey a ∈ found)
    (h : processStep content pos found acc = some (found2, acc2)) :
    (acc2.map entryKey).Pairwise (· ≠ ·) ∧ ∀ a ∈ acc2, entryKey a ∈ found2 := by
  unfold processStep at h
  cases hx : extract_json_object content pos with
  | indexError =>
    simp only [hx] at h
    exact Option.noConfusion h
  | notFound =>
    simp only [hx] at h
    injection h with h1
    injection h1 with ha hb
    subst ha
    subst hb
    exact ⟨hpw, hsub⟩
  | ok text s e =>
    simp only [hx] at h
    split at h
    · injection h with h1
      injection h1 with ha hb
      subst ha
      subst hb
      exact ⟨hpw, hsub⟩
    · split at h
      · injection h with h1
        injection h1 with ha hb
        subst ha
        subst hb
        exact ⟨hpw, hsub⟩
      · rename_i hnotmem
        cases hv : json_loads text with
        | some v =>
          simp only [hv] at h
          injection h with h1
          injection h1 with ha hb
          subst ha
          subst hb
          constructor
          · rw [List.map_append]
            apply List.pairwise_append.mpr
            refine ⟨hpw, by simp, ?_⟩
            intro x hx y hy
            simp only [List.map_cons, List.map_nil, List.mem_singleton] at hy
            subst hy
            obtain ⟨a, ha, rfl⟩ := List.mem_map.mp hx
            intro hxy
            apply hnotmem
            show (s, e) ∈ found
            rw [show ((s, e) : Int × Int) = entryKey ⟨s, e, v⟩ from rfl, ← hxy]
            exact hsub a ha
          · intro a ha
            rcases List.mem_append.mp ha with hmem | hmem
            · exact List.mem_cons_of_mem _ (hsub a hmem)
            · simp only [List.mem_singleton] at hmem
              subst hmem
              exact List.mem_cons_self _ _
        | none =>
          simp only [hv] at h
          injection h with h1
          injection h1 with ha hb
          subst ha
          subst hb
          refine ⟨hpw, fun a ha => List.mem_cons_of_mem _ (hsub a ha)⟩

theorem processPositions_pairwise (content : List Char) :
    ∀ (ps : List Nat) (found : List (Int × Int)) (acc out : List Entry),
      (acc.map entryKey).Pairwise (· ≠ ·) →
      (∀ a ∈ acc, entryKey a ∈ found) →
      processPositions content ps found acc = some out →
      (out.map entryKey).Pairwise (· ≠ ·) := by
  intro ps
  induction ps with
  | nil =>
    intro found acc out hpw hsub h
    simp only [processPositions] at h
    injection h with h1
    subst h1
    exact hpw
  | cons pos rest ih =>
    intro found acc out hpw hsub h
    simp only [processPositions] at h
    split at h
    · exact Option.noConfusion h
    · rename_i found2 acc2 hstep
      obtain ⟨hpw2, hsub2⟩ := processStep_inv content pos found found2 acc acc2 hpw hsub hstep
      exact ih found2 acc2 out hpw2 hsub2 h

/-! ## The claims -/

/-- C1.  The claim says that for an offset strictly inside a balanced block
(no braces in strings), `extract_json_object` returns that enclosing block
and its offsets.  The code refutes it: in `nestedSiblingDoc` the only
balanced block strictly containing offset 16 spans offsets 0 to 26, yet the
function returns the fragment starting at offset 6 — the backward scan stops
at the first opening brace it meets, even though that brace's block was
already closed before offset 16. -/
theorem c1_backward_scan_wrong_block :
    extract_json_object nestedSiblingDoc 16 = .ok fragmentChars 6 26 ∧
    isBalancedBlock nestedSiblingDoc 0 26 = true ∧
    (0 < 16 ∧ 16 < 26) ∧
    stringsBraceFree nestedSiblingDoc = true ∧
    onlyEnclosingBlock nestedSiblingDoc 16 0 26 = true ∧
    find_all_positions nestedSiblingDoc "42" = [16] ∧
    decide (extract_json_object nestedSiblingDoc 16 =
      .ok (nestedSiblingDoc.take 27) 0 26) = false :=
  ⟨rfl, rfl, ⟨by omega, by omega⟩, rfl, rfl, rfl, rfl⟩

/-- C2.  The claim says that when the forward scan exhausts the document
without the depth reaching 0, `extract_json_object` returns the `not_found`
triple `(None, -1, -1)` and raises no out-of-range indexing error.  The code
refutes it: on the truncated document `\x7b"id": "42"` the literal occurs at
offset 1, and extraction there raises `IndexError` (the loop increments
`object_end` and then reads `content[object_end]`, which is read at index
`len(content)` on the last iteration), so the `(None, -1, -1)` return is
never reached. -/
theorem c2_forward_scan_index_error :
    find_all_positions truncatedDoc "42" = [1] ∧
    extract_json_object truncatedDoc 1 = .indexError :=
  ⟨rfl, rfl⟩

/-- C3.  The claim says that when the backward scan reaches position 0
without finding an opening brace the operation fails with "no object found".
The code refutes it: on `abc\x7d` at offset 0 the backward scan finds no
opening brace (`scanBack` is `nofind`), yet the operation does not fail — it
continues with `object_start = -1` and returns a "successful" extraction
whose text is the Python slice `content[-1:4]`, the single character `\x7d`. -/
theorem c3_no_open_brace_still_succeeds :
    scanBack ("abc\x7d".toList) 0 = .nofind ∧
    extract_json_object ("abc\x7d".toList) 0 = .ok ("\x7d".toList) (-1) 3 :=
  ⟨rfl, rfl⟩

/-- C4.  The claim says every invocation on a readable document prints a JSON
array.  The code refutes it: on the readable truncated document
`\x7b"id": "42"` with id `42`, the `IndexError` from the forward scan escapes
to the generic handler and the program prints the error object
`\x7b"error": "string index out of range"\x7d` instead of an array. -/
theorem c4_unbalanced_document_error_object :
    run truncatedDoc "42" = .errObj ("string index out of range".toList) :=
  rfl

/-- C5.  An unreadable input file is reported as the structured error object
`\x7b"error": "File '<name>' not found"\x7d`, while a readable document with
no match prints the empty array — two distinct outcomes, neither a crash. -/
theorem c5_unreadable_error_vs_empty (filename target : String) (content : List Char) :
    program none filename target =
      .errObj ("File '".toList ++ filename.toList ++ "' not found".toList) ∧
    (find_all_positions content target = [] → program (some content) filename target = .arr []) ∧
    program none filename target ≠ .arr [] := by
  refine ⟨rfl, ?_, ?_⟩
  · intro h
    simp only [program, run, h]
  · intro hh
    exact Output.noConfusion hh

/-- C6.  Every array the program prints has pairwise distinct deduplication
keys `(start, end)`: the loop skips a position whose extracted block has an
already-seen key, so an object reached from several internal offsets is
emitted once. -/
theorem c6_output_keys_distinct (content : List Char) (target : String)
    (entries : List Entry) (h : run content target = .arr entries) :
    (entries.map entryKey).Pairwise (· ≠ ·) := by
  unfold run at h
  split at h
  · injection h with h1
    subst h1
    simp
  · rename_i p rest hpos
    split at h
    · rename_i entries2 hproc
      injection h with h1
      subst h1
      exact processPositions_pairwise content (p :: rest) [] [] entries2 (by simp) (by simp) hproc
    · exact Output.noConfusion h

/-- Witness for C6 at a concrete input: in `dupLiteralDoc` the literal
`"id": "42"` occurs at offsets 1 and 21 inside one object, both extractions
yield the key `(0, 31)`, and the printed array holds that object exactly
once. -/
theorem c6_output_keys_distinct_witness :
    (([⟨0, 31, .obj [("id".toList, .str ("42".toList)), ("a".toList, .num 1 0)]⟩] :
      List Entry).map entryKey).Pairwise (· ≠ ·) :=
  c6_output_keys_distinct dupLiteralDoc "42"
    [⟨0, 31, .obj [("id".toList, .str ("42".toList)), ("a".toList, .num 1 0)]⟩] (by rfl)

/-- C7 counterexample.  The spec calls the search "non-overlapping", but the
source resumes at `pos + 1`: in `overlapDoc` the literal for id `A` occurs at
offsets 0 and 8, which overlap, and `find_all_positions` reports both, while
the non-overlapping search the spec describes reports only offset 0. -/
theorem c7_overlap_counterexample :
    find_all_positions overlapDoc "A" = [0, 8] ∧
    specNonOverlappingPositions overlapDoc "A" = [0] ∧
    decide (find_all_positions overlapDoc "A" =
      specNonOverlappingPositions overlapDoc "A") = false :=
  ⟨rfl, rfl, rfl⟩

/-- C7 as amended.  `find_all_positions` returns every offset at which the
literal occurs — overlapping occurrences included, since the search resumes
one character past each match — in strictly ascending order; when the literal
does not occur the result is the empty list (never an error). -/
theorem c7_find_positions_characterization (content : List Char) (target_id : String) :
    (find_all_positions content target_id).Pairwise (· < ·) ∧
    (∀ p, p ∈ find_all_positions content target_id ↔
      OccursAt content (searchChars target_id) p) ∧
    ((∀ p, p < content.length → ¬ OccursAt content (searchChars target_id) p) →
      find_all_positions content target_id = []) := by
  have ht := searchChars_ne_nil target_id
  obtain ⟨hmem, hpw⟩ :=
    findLoop_spec content (searchChars target_id) ht (content.length + 1) 0 (by omega)
  refine ⟨hpw, ?_, ?_⟩
  · intro p
    unfold find_all_positions
    rw [hmem p]
    simp
  · intro hno
    unfold find_all_positions
    apply List.eq_nil_iff_forall_not_mem.mpr
    intro p hp
    obtain ⟨hp0, hocc⟩ := (hmem p).mp hp
    exact hno p (occursAt_lt_length content (searchChars target_id) p ht hocc) hocc

/-- C8.  The claim says an extraction that succeeds at an offset inside a
sub-object yields text that parses to the corresponding sub-object.  The code
refutes it: in `nestedSiblingDoc` (which parses as JSON and has no braces in
strings) the extraction at offset 16 "succeeds" with the fragment
`\x7b"x": 1\x7d, "id": "42"\x7d`, which `json.loads` rejects. -/
theorem c8_extracted_fragment_unparseable :
    extract_json_object nestedSiblingDoc 16 = .ok fragmentChars 6 26 ∧
    json_loads fragmentChars = none ∧
    (json_loads nestedSiblingDoc).isSome = true ∧
    stringsBraceFree nestedSiblingDoc = true :=
  ⟨rfl, rfl, rfl, rfl⟩

/-- C9.  The whole pipeline is a pure function of the document text and the
target literal: two runs on the same inputs yield the same printed output.
The source keeps no state across the computation other than the local
variables modelled here, so the embedding is deterministic by construction. -/
theorem c9_run_deterministic (c1 c2 : List Char) (t1 t2 : String)
    (hc : c1 = c2) (ht : t1 = t2) : run c1 t1 = run c2 t2 := by
  subst hc
  subst ht
  rfl

/-- Witness for C9 at a concrete input. -/
theorem c9_run_deterministic_witness :
    run dupLiteralDoc "42" = run dupLiteralDoc "42" :=
  c9_run_deterministic dupLiteralDoc dupLiteralDoc "42" "42" rfl rfl

/-- C10.  The searched literal is exactly `"id": "` + id + `"` — quoted key,
colon, one space, quoted value — so the document `\x7b"id":"42"\x7d`, which
serializes the same id without the space, has no match and the program prints
the empty array. -/
theorem c10_search_literal_exact :
    (∀ target_id : String,
      searchChars target_id = "\"id\": \"".toList ++ target_id.toList ++ "\"".toList) ∧
    find_all_positions noSpaceDoc "42" = [] ∧
    run noSpaceDoc "42" = .arr [] :=
  ⟨fun _ => rfl, rfl, rfl⟩

end ExtractIdBlocks
